import Mathlib

/- Verification of the follower-cleanup tool.

   Shallow embedding of:
   * the username classifier `is_bot_username` (src/utils.py) together with the
     shipped pattern configuration `BOT_DETECTION` (src/config.py);
   * the batch scan-and-remove engine `TwitterCleaner.scan_and_remove_in_batches`
     (src/twitter_cleaner.py), with the browser page modelled as an abstract
     driver mapping each tick to the list of rendered cells;
   * the backup condition of `TwitterCleaner.run` / `save_backup` and the exit
     code mapping of `main.py`.

   Strings are modelled over ASCII character classes (platform usernames are
   drawn from [A-Za-z0-9_]); Python's `re.match` anchors every pattern at the
   start of the string, `.` matches any character except a newline, and a final
   `$` matches at the end of the string or just before one trailing newline.
   Each pattern of the configuration is embedded as an executable matcher with
   exactly those semantics. -/

namespace XBotsPurge

/-- ASCII lowercase letter: the regex class [a-z]. -/
def isLowerAZ (c : Char) : Bool := decide ('a' ≤ c ∧ c ≤ 'z')

/-- ASCII letter: the regex class [a-zA-Z]. -/
def isAlphaAZ (c : Char) : Bool := isLowerAZ c || decide ('A' ≤ c ∧ c ≤ 'Z')

/-- ASCII word character: the regex class \w (letters, digits, underscore). -/
def isWordChar (c : Char) : Bool := isAlphaAZ c || c.isDigit || c == '_'

/-- Lowercase hexadecimal character: the regex class [0-9a-f]. -/
def isHexLower (c : Char) : Bool := c.isDigit || decide ('a' ≤ c ∧ c ≤ 'f')

/-- Python `$` for a pattern of shape `B$`: the pattern matches the whole string
    when the body B matches the entire string, or when the string ends in a
    newline and B matches everything before that final newline. -/
def matchDollar (body : List Char → Bool) (s : List Char) : Bool :=
  body s || (s.getLast? == some '\n' && body s.dropLast)

/-- Body of the primary pattern `.*\d{K,}$` (config digit_suffix_pattern, with
    K = 5 shipped): since `.` never matches a newline and digits are not
    newlines, a match exists exactly when the final K characters are digits and
    no earlier character is a newline. -/
def digitSuffixCore (k : Nat) (t : List Char) : Bool :=
  decide (k ≤ t.length) && (t.drop (t.length - k)).all Char.isDigit &&
    (t.take (t.length - k)).all (fun c => c != '\n')

/-- `re.match(r".*\d{K,}$", s)` as a Boolean matcher. -/
def digitSuffixMatch (k : Nat) (s : List Char) : Bool :=
  matchDollar (digitSuffixCore k) s

/-- Body of `^[a-z]+\d{8}$`: one or more lowercase letters then exactly 8
    digits; the split point is forced at length − 8. -/
def pat1Core (t : List Char) : Bool :=
  decide (9 ≤ t.length) && (t.take (t.length - 8)).all isLowerAZ &&
    (t.drop (t.length - 8)).all Char.isDigit

/-- Body of `^\w+_\d{5,}$`: an underscore at position j ≥ 1 preceded by word
    characters and followed (to the end of the body) by at least 5 digits. -/
def pat2Core (t : List Char) : Bool :=
  (List.range t.length).any (fun j =>
    decide (1 ≤ j) && (t.getD j ' ' == '_') && decide (5 ≤ t.length - (j + 1)) &&
      (t.drop (j + 1)).all Char.isDigit && (t.take j).all isWordChar)

/-- Body of `\d{6,}$` under `re.match` (anchored at position 0): the whole body
    must consist of 6 or more digits. -/
def pat3Core (t : List Char) : Bool :=
  decide (6 ≤ t.length) && t.all Char.isDigit

/-- Body of `^\d{8,}$`: 8 or more digits and nothing else. -/
def pat4Core (t : List Char) : Bool :=
  decide (8 ≤ t.length) && t.all Char.isDigit

/-- Body of `^(?=[0-9a-f]*[0-9])(?=[0-9a-f]*[a-f])[0-9a-f]{12,}$`: 12+ lowercase
    hex characters containing at least one digit and at least one letter a-f
    (the two lookaheads inspect the leading hex run, which is the whole body). -/
def pat5Core (t : List Char) : Bool :=
  decide (12 ≤ t.length) && t.all isHexLower && t.any Char.isDigit &&
    t.any (fun c => decide ('a' ≤ c ∧ c ≤ 'f'))

/-- `re.match(r"(\d{2,})\1{2,}", s)`: no `$`, so only a prefix has to match —
    a group of m ≥ 2 leading digits immediately repeated at least twice more. -/
def pat6Match (s : List Char) : Bool :=
  (List.range (s.length + 1)).any (fun m =>
    decide (2 ≤ m) && decide (3 * m ≤ s.length) && (s.take m).all Char.isDigit &&
      ((s.drop m).take m == s.take m) && ((s.drop (2 * m)).take m == s.take m))

/-- `re.match(r"(\d)\1{4,}", s)`: the first character is a digit repeated at
    least 4 more times right after it (prefix match, no `$`). -/
def pat7Match : List Char → Bool
  | [] => false
  | c :: rest => c.isDigit && decide (4 ≤ rest.length) &&
      (rest.take 4).all (fun d => d == c)

/-- `re.match(r"^(?=(?:.*\d){6,}).*$", s)`: the lookahead needs 6+ digits before
    the first newline, and `.*$` forces the string to contain no newline except
    possibly one at the very end. -/
def pat8Match (s : List Char) : Bool :=
  decide (6 ≤ (s.takeWhile (fun c => c != '\n')).countP Char.isDigit) &&
    (s.all (fun c => c != '\n') ||
      (s.getLast? == some '\n' && s.dropLast.all (fun c => c != '\n')))

/-- Body of `^[a-zA-Z]\d{6,}$`: a single letter then 6 or more digits. -/
def pat9Core : List Char → Bool
  | [] => false
  | c :: rest => isAlphaAZ c && decide (6 ≤ rest.length) && rest.all Char.isDigit

/-- Body of `_[12]\d{3}$` under `re.match` (anchored at position 0): the body is
    exactly an underscore, a 1 or 2, and three digits — five characters. -/
def pat10Core (t : List Char) : Bool :=
  decide (t.length = 5) && (t.getD 0 ' ' == '_') &&
    (t.getD 1 ' ' == '1' || t.getD 1 ' ' == '2') && (t.drop 2).all Char.isDigit

/-- One entry of config BOT_DETECTION["suspicious_patterns"]: the pattern source
    text (used in the reported reason) and its `re.match` semantics. -/
structure BotRule where
  source : String
  accepts : List Char → Bool

/-- The shipped suspicious-pattern list of src/config.py, in order. -/
def suspicious_patterns : List BotRule :=
  [ ⟨"^[a-z]+\\d\x7b8\x7d$", matchDollar pat1Core⟩,
    ⟨"^\\w+_\\d\x7b5,\x7d$", matchDollar pat2Core⟩,
    ⟨"\\d\x7b6,\x7d$", matchDollar pat3Core⟩,
    ⟨"^\\d\x7b8,\x7d$", matchDollar pat4Core⟩,
    ⟨"^(?=[0-9a-f]*[0-9])(?=[0-9a-f]*[a-f])[0-9a-f]\x7b12,\x7d$", matchDollar pat5Core⟩,
    ⟨"(\\d\x7b2,\x7d)\\1\x7b2,\x7d", pat6Match⟩,
    ⟨"(\\d)\\1\x7b4,\x7d", pat7Match⟩,
    ⟨"^(?=(?:.*\\d)\x7b6,\x7d).*$", pat8Match⟩,
    ⟨"^[a-zA-Z]\\d\x7b6,\x7d$", matchDollar pat9Core⟩,
    ⟨"_[12]\\d\x7b3\x7d$", matchDollar pat10Core⟩ ]

/-- utils.is_bot_username, generic in the digit-suffix matcher (the configured
    threshold K) and the suspicious-pattern list: first the primary digit-suffix
    check with its fixed reason, then the first matching auxiliary rule with an
    f-string reason naming the pattern, else not a bot. -/
def is_bot_username_gen (digitMatch : List Char → Bool) (rules : List BotRule)
    (username : String) : Bool × String :=
  if digitMatch username.data then
    (true, "Username ends with 3+ consecutive digits")
  else
    match rules.find? (fun r => r.accepts username.data) with
    | some r => (true, "Matches suspicious pattern: " ++ r.source)
    | none => (false, "")

/-- The shipped digit-suffix threshold: `.*\d{5,}$`. -/
def digit_suffix_K : Nat := 5

/-- utils.is_bot_username with the shipped src/config.py configuration. -/
def is_bot_username (username : String) : Bool × String :=
  is_bot_username_gen (digitSuffixMatch digit_suffix_K) suspicious_patterns username

/-- A Boolean `any` over a list is invariant under permutation. -/
theorem any_of_perm {α : Type} {l₁ l₂ : List α} (h : l₁.Perm l₂) (p : α → Bool) :
    l₁.any p = l₂.any p := by
  cases ha : l₂.any p with
  | false =>
    cases hb : l₁.any p with
    | false => rfl
    | true =>
      obtain ⟨x, hx, hpx⟩ := List.any_eq_true.mp hb
      have : l₂.any p = true := List.any_eq_true.mpr ⟨x, h.mem_iff.mp hx, hpx⟩
      rw [this] at ha
      exact ha
  | true =>
    obtain ⟨x, hx, hpx⟩ := List.any_eq_true.mp ha
    exact List.any_eq_true.mpr ⟨x, h.mem_iff.mpr hx, hpx⟩

/-- The Boolean verdict of the classifier is the disjunction of the primary
    digit-suffix rule and all auxiliary rules. -/
theorem is_bot_username_gen_fst (digitMatch : List Char → Bool) (rules : List BotRule)
    (u : String) :
    (is_bot_username_gen digitMatch rules u).fst
      = (digitMatch u.data || rules.any (fun r => r.accepts u.data)) := by
  unfold is_bot_username_gen
  cases hd : digitMatch u.data with
  | true => simp
  | false =>
    cases hf : rules.find? (fun r => r.accepts u.data) with
    | none =>
      have hall : rules.any (fun r => r.accepts u.data) = false := by
        rw [List.any_eq_false]
        intro r hr
        simpa using List.find?_eq_none.mp hf r hr
      simp [hf, hall]
    | some r =>
      have hr : rules.any (fun r => r.accepts u.data) = true := by
        refine List.any_eq_true.mpr ⟨r, List.mem_of_find?_eq_some hf, ?_⟩
        have hp := List.find?_some hf
        simpa using hp
      simp [hf, hr]

/-- C5: every username matching the digit-suffix pattern with threshold K is
    classified as a bot with the fixed digit-suffix reason, for any threshold K
    and any auxiliary rule list (in particular the shipped K = 5
    configuration), because the digit-suffix rule is evaluated first. -/
theorem c5_digit_suffix_flags_bot (K : Nat) (rules : List BotRule) (u : String)
    (h : digitSuffixMatch K u.data = true) :
    is_bot_username_gen (digitSuffixMatch K) rules u
      = (true, "Username ends with 3+ consecutive digits") := by
  unfold is_bot_username_gen
  rw [if_pos h]

theorem c5_digit_suffix_flags_bot_witness :
    digitSuffixMatch digit_suffix_K ("user12345").data = true ∧
      is_bot_username "user12345" = (true, "Username ends with 3+ consecutive digits") :=
  ⟨by decide,
    c5_digit_suffix_flags_bot digit_suffix_K suspicious_patterns "user12345" (by decide)⟩

/-- C6: the claim asserts that `is_bot_username "bob_2024"` is flagged as a bot
    via the year-suffix rule `_[12]\d{3}$`. The shipped code returns
    (False, "") instead: `re.match` anchors every suspicious pattern at the
    start of the username, so the year-suffix pattern only matches usernames
    that begin with an underscore, contradicting the config comment
    "underscore, year-like suffix" (and the sibling comment "ends with 6+
    digits" on the likewise-anchored pattern `\d{6,}$`). -/
theorem c6_bob_2024_not_flagged : is_bot_username "bob_2024" = (false, "") := by
  decide

/-- C7: the Boolean component of the classifier equals the logical OR over all
    configured rules, so it is independent of the auxiliary-rule evaluation
    order: permuting the rule list can change only the reason string, never the
    Boolean verdict (and the classifier is a function, so identical input
    yields identical output). -/
theorem c7_verdict_is_or_and_order_independent (digitMatch : List Char → Bool)
    (rules : List BotRule) (u : String) :
    (is_bot_username_gen digitMatch rules u).fst
      = (digitMatch u.data || rules.any (fun r => r.accepts u.data))
    ∧ ∀ rules₂ : List BotRule, rules.Perm rules₂ →
        (is_bot_username_gen digitMatch rules₂ u).fst
          = (is_bot_username_gen digitMatch rules u).fst := by
  refine ⟨is_bot_username_gen_fst digitMatch rules u, ?_⟩
  intro rules₂ hp
  rw [is_bot_username_gen_fst, is_bot_username_gen_fst, any_of_perm hp]

theorem c7_verdict_is_or_and_order_independent_witness :
    (is_bot_username_gen (digitSuffixMatch digit_suffix_K) suspicious_patterns.reverse
        "alice").fst
      = (is_bot_username "alice").fst :=
  (c7_verdict_is_or_and_order_independent (digitSuffixMatch digit_suffix_K)
      suspicious_patterns "alice").2 suspicious_patterns.reverse
    suspicious_patterns.reverse_perm.symm

/- ===================== Scan-and-remove engine ========================== -/

/-- utils.FollowerInfo (the `timestamp` field is wall-clock capture time and is
    outside the model). -/
structure FollowerInfo where
  username : String
  display_name : String
  is_bot : Bool
  bot_reason : String
  removed : Bool
  removal_error : String

/-- config LIMITS["max_removals_per_session"]. -/
def max_removals_per_session : Nat := 1000

/-- config LIMITS["max_scroll_attempts"]. -/
def max_scroll_attempts : Nat := 150

/-- Line 354 of src/twitter_cleaner.py:
    `removal_limit = limit or LIMITS["max_removals_per_session"]` — `None` and
    the falsy `0` both select the default (the CLI passes nonnegative ints in
    the scenarios the claims concern, so the limit is modelled as a Nat). -/
def effectiveRemovalLimit : Option Nat → Nat
  | none => max_removals_per_session
  | some n => if n = 0 then max_removals_per_session else n

/-- The external collaborators of `scan_and_remove_in_batches`: the page driver
    (tick number ↦ rendered cells, each cell giving the extraction result of
    `_extract_follower_info`: `none` for a failed extraction, otherwise
    username and display name), the outcome of `_remove_follower_from_cell`
    per username, the operator's answer to the one possible confirmation
    prompt, and the method's parameters. -/
structure EngineParams where
  driver : Nat → List (Option (String × String))
  removeSuccess : String → Bool
  confirmAnswer : Bool
  dry_run : Bool
  require_confirmation : Bool
  from_end : Bool

/-- The mutable state of a `TwitterCleaner` session as touched by
    `scan_and_remove_in_batches`, plus the local loop variables.
    `ticks` (loop iterations executed) and `attempts` (removal attempts
    started) are instrumentation counters used only to state theorems; they
    influence nothing. -/
structure EngineState where
  scanned_usernames : List String
  followers : List FollowerInfo
  removed_count : Nat
  failed_count : Nat
  scroll_count : Nat
  no_new_followers_count : Nat
  dry_run : Bool
  first_removal : Bool
  ticks : Nat
  attempts : Nat

/-- Lines 373-385: scan the visible cells in order; a cell whose extraction
    failed, or whose username was already scanned, is skipped; otherwise the
    username is marked seen, the record (classified by `is_bot_username`) is
    appended, and the new-followers counter is bumped. Returns the updated
    seen-set, the records appended this tick, and the new-follower count. -/
def harvestCells (scanned : List String) (acc : List FollowerInfo) (nf : Nat) :
    List (Option (String × String)) → List String × List FollowerInfo × Nat
  | [] => (scanned, acc, nf)
  | none :: cs => harvestCells scanned acc nf cs
  | some (u, d) :: cs =>
    if u ∈ scanned then harvestCells scanned acc nf cs
    else
      harvestCells (u :: scanned)
        (acc ++ [⟨u, d, (is_bot_username u).fst, (is_bot_username u).snd, false, ""⟩])
        (nf + 1) cs

/-- Result of the per-batch removal loop. -/
structure RemovalResult where
  fs : List FollowerInfo
  removed_count : Nat
  failed_count : Nat
  attempts : Nat

/-- Lines 399-417: walk the bots of this tick's batch in harvest order (the
    non-bot records of the tick pass through untouched — they are not in
    `batch_bots`); before each attempt compare the removed counter to the
    limit and break when it is reached; on success set `removed` and bump the
    removed counter, on failure set `removal_error` and bump the failed
    counter. In the source the records are already in `self.followers` and
    mutated in place; here the tick's fresh records are updated first and
    appended afterwards, which produces the same list. -/
def processRemovals (lim : Nat) (succ : String → Bool) :
    List FollowerInfo → Nat → Nat → Nat → RemovalResult
  | [], rc, fc, att => ⟨[], rc, fc, att⟩
  | f :: fs, rc, fc, att =>
    if f.is_bot then
      if lim ≤ rc then ⟨f :: fs, rc, fc, att⟩
      else if succ f.username then
        let r := processRemovals lim succ fs (rc + 1) fc (att + 1)
        ⟨{ f with removed := true } :: r.fs, r.removed_count, r.failed_count, r.attempts⟩
      else
        let r := processRemovals lim succ fs rc (fc + 1) (att + 1)
        ⟨{ f with removal_error := "Failed to remove" } :: r.fs,
          r.removed_count, r.failed_count, r.attempts⟩
    else
      let r := processRemovals lim succ fs rc fc att
      ⟨f :: r.fs, r.removed_count, r.failed_count, r.attempts⟩

/-- One tick of the while-loop (lines 357-449) up to and including the batch
    removal phase: harvest the driver's cells for this tick (reversed in
    from_end mode), run the confirmation gate (lines 390-397: on the first
    batch containing a bot, if confirmation is required, a declined prompt
    sets dry_run for the rest of the run, an accepted prompt clears
    first_removal), then the batch removals when not in dry-run. The
    error-recovery call of line 359 only interacts with the browser and has no
    state in the model. Returns the updated state and the tick's new-follower
    count. -/
def tickCore (P : EngineParams) (lim : Nat) (st : EngineState) : EngineState × Nat :=
  let cells0 := P.driver st.scroll_count
  let cells := if P.from_end then cells0.reverse else cells0
  let h := harvestCells st.scanned_usernames [] 0 cells
  let scanned' := h.1
  let newFs := h.2.1
  let newFound := h.2.2
  let doBlock := newFs.any (fun f => f.is_bot) && !st.dry_run
  let declined := doBlock && st.first_removal && P.require_confirmation && !P.confirmAnswer
  let dryRun' := if declined then true else st.dry_run
  let firstRemoval' :=
    if doBlock && st.first_removal && P.require_confirmation && P.confirmAnswer then false
    else st.first_removal
  let r : RemovalResult :=
    if doBlock && !declined then
      processRemovals lim P.removeSuccess newFs st.removed_count st.failed_count st.attempts
    else ⟨newFs, st.removed_count, st.failed_count, st.attempts⟩
  (⟨scanned', st.followers ++ r.fs, r.removed_count, r.failed_count,
    st.scroll_count, st.no_new_followers_count, dryRun', firstRemoval',
    st.ticks + 1, r.attempts⟩, newFound)

/-- The stop conditions and advance of one tick (lines 419-449, checked in
    source order): stop when the removed count reached the limit; otherwise on
    a tick with no new followers bump the no-new counter and stop at 3;
    otherwise reset it; a continuing tick scrolls, i.e. increments
    scroll_count. Returns the state and whether the loop continues. -/
def tick (P : EngineParams) (lim : Nat) (st : EngineState) : EngineState × Bool :=
  let c := tickCore P lim st
  let st1 := c.1
  let newFound := c.2
  if lim ≤ st1.removed_count then (st1, false)
  else if newFound = 0 then
    if 3 ≤ st1.no_new_followers_count + 1 then
      ({ st1 with no_new_followers_count := st1.no_new_followers_count + 1 }, false)
    else
      ({ st1 with no_new_followers_count := st1.no_new_followers_count + 1,
                  scroll_count := st1.scroll_count + 1 }, true)
  else ({ st1 with no_new_followers_count := 0, scroll_count := st1.scroll_count + 1 }, true)

/-- The while-loop `while scroll_count < LIMITS["max_scroll_attempts"]`. The
    fuel argument only makes the recursion structural: every continuing tick
    increments scroll_count by exactly 1, so starting from scroll_count = 0
    with fuel = max_scroll_attempts the guard always fails before the fuel
    does, and the function equals the source loop. -/
def engineLoop (P : EngineParams) (lim : Nat) : Nat → EngineState → EngineState
  | 0, st => st
  | fuel + 1, st =>
    if st.scroll_count < max_scroll_attempts then
      let r := tick P lim st
      if r.2 then engineLoop P lim fuel r.1 else r.1
    else st

/-- The session state at the start of `scan_and_remove_in_batches` for a fresh
    `TwitterCleaner` (constructor, lines 47-51, plus the loop locals of lines
    352-355). -/
def initState (P : EngineParams) : EngineState :=
  ⟨[], [], 0, 0, 0, 0, P.dry_run, true, 0, 0⟩

/-- TwitterCleaner.scan_and_remove_in_batches on a fresh session: run the tick
    loop with the effective removal limit. -/
def scan_and_remove_in_batches (P : EngineParams) (limit : Option Nat) : EngineState :=
  engineLoop P (effectiveRemovalLimit limit) max_scroll_attempts (initState P)

/-- Count of records flagged as bots. -/
def countBots (fs : List FollowerInfo) : Nat := fs.countP (fun f => f.is_bot)

/-- Count of records marked removed. -/
def countRemoved (fs : List FollowerInfo) : Nat := fs.countP (fun f => f.removed)

/-- Line 969 of src/twitter_cleaner.py: `if self.removed_count > 0:` guards the
    call to save_backup. -/
def run_writes_backup (st : EngineState) : Bool := decide (0 < st.removed_count)

/-- Line 231 of src/utils.py: the followers serialized into the backup are
    `[asdict(f) for f in followers if f.removed]`. -/
def save_backup_followers (followers : List FollowerInfo) : List FollowerInfo :=
  followers.filter (fun f => f.removed)

/-- The usernames of a record list, in order. -/
def usernamesOf (fs : List FollowerInfo) : List String :=
  fs.map (fun f => f.username)

/-- The harvest performed by a tick, as a standalone term (definitionally the
    harvest inside `tickCore`). -/
def harvestAt (P : EngineParams) (st : EngineState) :
    List String × List FollowerInfo × Nat :=
  harvestCells st.scanned_usernames [] 0
    (if P.from_end then (P.driver st.scroll_count).reverse else P.driver st.scroll_count)

/- ===================== Harvest lemmas ========================== -/

/-- The seen-set only grows during a harvest. -/
theorem harvestCells_scanned_mono (cells : List (Option (String × String))) :
    ∀ scanned acc nf, ∀ x ∈ scanned, x ∈ (harvestCells scanned acc nf cells).1 := by
  induction cells with
  | nil => intro scanned acc nf x hx; simpa [harvestCells] using hx
  | cons c cs ih =>
    intro scanned acc nf x hx
    match c with
    | none => simpa [harvestCells] using ih scanned acc nf x hx
    | some (u, d) =>
      by_cases h : u ∈ scanned
      · simpa [harvestCells, h] using ih scanned acc nf x hx
      · simp only [harvestCells, if_neg h]
        exact ih _ _ _ x (List.mem_cons_of_mem u hx)

/-- Core harvest invariant: starting from an accumulator whose usernames are
    distinct and all seen, the harvested records have distinct usernames, all
    seen afterwards, and every record beyond the accumulator is fresh (its
    username was unseen at entry) and unremoved. -/
theorem harvestCells_fresh (cells : List (Option (String × String))) :
    ∀ scanned acc nf,
      ((usernamesOf acc).Nodup ∧ ∀ f ∈ acc, f.username ∈ scanned) →
      ((usernamesOf (harvestCells scanned acc nf cells).2.1).Nodup
        ∧ (∀ f ∈ (harvestCells scanned acc nf cells).2.1,
            f.username ∈ (harvestCells scanned acc nf cells).1)
        ∧ (∀ f ∈ (harvestCells scanned acc nf cells).2.1,
            f ∈ acc ∨ (¬ f.username ∈ scanned ∧ f.removed = false))) := by
  induction cells with
  | nil =>
    intro scanned acc nf h
    exact ⟨h.1, fun f hf => h.2 f hf, fun f hf => Or.inl hf⟩
  | cons c cs ih =>
    intro scanned acc nf h
    match c with
    | none => exact ih scanned acc nf h
    | some (u, d) =>
      by_cases hu : u ∈ scanned
      · simp only [harvestCells, if_pos hu]
        exact ih scanned acc nf h
      · simp only [harvestCells, if_neg hu]
        have hnames : usernamesOf (acc ++
            [⟨u, d, (is_bot_username u).fst, (is_bot_username u).snd, false, ""⟩])
              = usernamesOf acc ++ [u] := by
          simp [usernamesOf]
        have hnodup : (usernamesOf (acc ++
            [⟨u, d, (is_bot_username u).fst, (is_bot_username u).snd, false, ""⟩])).Nodup := by
          rw [hnames]
          rw [List.nodup_append]
          refine ⟨h.1, List.nodup_singleton u, ?_⟩
          intro a ha hb
          have : a = u := by simpa using hb
          subst this
          have : a ∈ scanned := by
            obtain ⟨f, hf, hfu⟩ := List.mem_map.mp ha
            exact hfu ▸ h.2 f hf
          exact hu this
        have hmem : ∀ f ∈ acc ++
            [⟨u, d, (is_bot_username u).fst, (is_bot_username u).snd, false, ""⟩],
            f.username ∈ u :: scanned := by
          intro f hf
          rcases List.mem_append.mp hf with hf | hf
          · exact List.mem_cons_of_mem u (h.2 f hf)
          · have : f = ⟨u, d, (is_bot_username u).fst, (is_bot_username u).snd, false, ""⟩ := by
              simpa using hf
            subst this
            exact List.mem_cons_self _ _
        obtain ⟨g1, g2, g3⟩ := ih (u :: scanned) _ (nf + 1) ⟨hnodup, hmem⟩
        refine ⟨g1, g2, ?_⟩
        intro f hf
        rcases g3 f hf with hacc | ⟨hfr, hrm⟩
        · rcases List.mem_append.mp hacc with hf' | hf'
          · exact Or.inl hf'
          · have : f = ⟨u, d, (is_bot_username u).fst, (is_bot_username u).snd, false, ""⟩ := by
              simpa using hf'
            subst this
            exact Or.inr ⟨hu, rfl⟩
        · refine Or.inr ⟨fun hin => hfr (List.mem_cons_of_mem u hin), hrm⟩

/- ===================== Removal-loop lemmas ========================== -/

/-- The removal loop never changes which records are present or their
    classification: usernames and bot flags are preserved positionally. -/
theorem processRemovals_shape (lim : Nat) (succ : String → Bool) :
    ∀ fs rc fc att,
      usernamesOf (processRemovals lim succ fs rc fc att).fs = usernamesOf fs
      ∧ countBots (processRemovals lim succ fs rc fc att).fs = countBots fs := by
  intro fs
  induction fs with
  | nil => intro rc fc att; exact ⟨rfl, rfl⟩
  | cons f fs ih =>
    intro rc fc att
    by_cases hb : f.is_bot
    · by_cases hl : lim ≤ rc
      · simp [processRemovals, hb, hl]
      · by_cases hs : succ f.username
        · have := ih (rc + 1) fc (att + 1)
          simp only [processRemovals, if_pos hb, if_neg hl, if_pos hs]
          constructor
          · simpa [usernamesOf] using this.1
          · simpa [countBots, List.countP_cons, hb] using this.2
        · have := ih rc (fc + 1) (att + 1)
          simp only [processRemovals, if_pos hb, if_neg hl, if_neg hs]
          constructor
          · simpa [usernamesOf] using this.1
          · simpa [countBots, List.countP_cons, hb] using this.2
    · have := ih rc fc att
      simp only [processRemovals, if_neg hb]
      constructor
      · simpa [usernamesOf] using this.1
      · simpa [countBots, List.countP_cons, hb] using this.2

/-- Counter/flag accounting of the removal loop: starting from records that are
    all unremoved, the number of records it marks removed is exactly the
    increase of the removed counter. -/
theorem processRemovals_removed (lim : Nat) (succ : String → Bool) :
    ∀ fs rc fc att, (∀ f ∈ fs, f.removed = false) →
      countRemoved (processRemovals lim succ fs rc fc att).fs + rc
        = (processRemovals lim succ fs rc fc att).removed_count := by
  intro fs
  induction fs with
  | nil => intro rc fc att _; simp [processRemovals, countRemoved]
  | cons f fs ih =>
    intro rc fc att hall
    have hf : f.removed = false := hall f (List.mem_cons_self f fs)
    have hrest : ∀ g ∈ fs, g.removed = false := fun g hg => hall g (List.mem_cons_of_mem f hg)
    by_cases hb : f.is_bot
    · by_cases hl : lim ≤ rc
      · simp only [processRemovals, if_pos hb, if_pos hl]
        have : countRemoved (f :: fs) = 0 := by
          rw [countRemoved, List.countP_eq_zero]
          intro g hg
          simp [hall g hg]
        omega
      · by_cases hs : succ f.username
        · have := ih (rc + 1) fc (att + 1) hrest
          simp only [processRemovals, if_pos hb, if_neg hl, if_pos hs]
          have hc : countRemoved ({ f with removed := true } ::
              (processRemovals lim succ fs (rc + 1) fc (att + 1)).fs)
                = countRemoved (processRemovals lim succ fs (rc + 1) fc (att + 1)).fs + 1 := by
            simp [countRemoved, List.countP_cons]
          omega
        · have := ih rc (fc + 1) (att + 1) hrest
          simp only [processRemovals, if_pos hb, if_neg hl, if_neg hs]
          have hc : countRemoved ({ f with removal_error := "Failed to remove" } ::
              (processRemovals lim succ fs rc (fc + 1) (att + 1)).fs)
                = countRemoved (processRemovals lim succ fs rc (fc + 1) (att + 1)).fs := by
            simp [countRemoved, List.countP_cons, hf]
          omega
    · have := ih rc fc att hrest
      simp only [processRemovals, if_neg hb]
      have hc : countRemoved (f :: (processRemovals lim succ fs rc fc att).fs)
          = countRemoved (processRemovals lim succ fs rc fc att).fs := by
        simp [countRemoved, List.countP_cons, hf]
      omega

/-- When every removal attempt succeeds and the counter starts below the limit,
    the removal loop removes exactly up to the limit: the final counter is
    min(limit, start + bots in the batch), and the number of attempts started
    equals the number of successful removals. -/
theorem processRemovals_all_success (lim : Nat) (succ : String → Bool)
    (hsucc : ∀ u, succ u = true) :
    ∀ fs rc fc att, rc ≤ lim →
      (processRemovals lim succ fs rc fc att).removed_count
          = min lim (rc + countBots fs)
      ∧ (processRemovals lim succ fs rc fc att).attempts
          = att + ((processRemovals lim succ fs rc fc att).removed_count - rc) := by
  intro fs
  induction fs with
  | nil =>
    intro rc fc att h
    constructor
    · simp only [processRemovals, countBots, List.countP_nil]
      omega
    · simp [processRemovals]
  | cons f fs ih =>
    intro rc fc att h
    by_cases hb : f.is_bot
    · by_cases hl : lim ≤ rc
      · simp only [processRemovals, if_pos hb, if_pos hl]
        constructor
        · have : rc = lim := Nat.le_antisymm h hl
          subst this
          omega
        · omega
      · have hcb : countBots (f :: fs) = countBots fs + 1 := by
          simp [countBots, List.countP_cons, hb]
        obtain ⟨h1, h2⟩ := ih (rc + 1) fc (att + 1) (by omega)
        simp only [processRemovals, if_pos hb, if_neg hl, if_pos (hsucc f.username)]
        constructor
        · rw [h1, hcb]
          omega
        · rw [h2, h1]
          omega
    · have hcb : countBots (f :: fs) = countBots fs := by
        simp [countBots, List.countP_cons, hb]
      have := ih rc fc att h
      simp only [processRemovals, if_neg hb]
      exact ⟨by rw [this.1, hcb], by rw [this.2]⟩

/- ===================== Tick lemmas ========================== -/

/-- Fields of the state that the stop/advance phase of a tick never touches. -/
theorem tick_fields (P : EngineParams) (lim : Nat) (st : EngineState) :
    (tick P lim st).1.scanned_usernames = (tickCore P lim st).1.scanned_usernames
    ∧ (tick P lim st).1.followers = (tickCore P lim st).1.followers
    ∧ (tick P lim st).1.removed_count = (tickCore P lim st).1.removed_count
    ∧ (tick P lim st).1.failed_count = (tickCore P lim st).1.failed_count
    ∧ (tick P lim st).1.dry_run = (tickCore P lim st).1.dry_run
    ∧ (tick P lim st).1.first_removal = (tickCore P lim st).1.first_removal
    ∧ (tick P lim st).1.ticks = (tickCore P lim st).1.ticks
    ∧ (tick P lim st).1.attempts = (tickCore P lim st).1.attempts := by
  unfold tick
  dsimp only
  split
  · exact ⟨rfl, rfl, rfl, rfl, rfl, rfl, rfl, rfl⟩
  · split
    · split
      · exact ⟨rfl, rfl, rfl, rfl, rfl, rfl, rfl, rfl⟩
      · exact ⟨rfl, rfl, rfl, rfl, rfl, rfl, rfl, rfl⟩
    · exact ⟨rfl, rfl, rfl, rfl, rfl, rfl, rfl, rfl⟩

/-- The harvest/removal phase leaves scroll and no-new counters alone and
    counts one loop iteration. -/
theorem tickCore_simple (P : EngineParams) (lim : Nat) (st : EngineState) :
    (tickCore P lim st).1.scroll_count = st.scroll_count
    ∧ (tickCore P lim st).1.no_new_followers_count = st.no_new_followers_count
    ∧ (tickCore P lim st).1.ticks = st.ticks + 1 :=
  ⟨rfl, rfl, rfl⟩

/-- A record list in which no record is marked removed has removed-count 0. -/
theorem countRemoved_eq_zero {fs : List FollowerInfo}
    (h : ∀ f ∈ fs, f.removed = false) : countRemoved fs = 0 := by
  rw [countRemoved, List.countP_eq_zero]
  intro g hg
  simp [h g hg]

/-- The state after a tick's harvest/removal phase decomposes as the old
    followers plus this tick's records, whose usernames and bot flags are those
    produced by the harvest, with the seen-set updated by the harvest; and when
    the tick's records start unremoved the removed counter advances by exactly
    the number of records marked removed. -/
theorem tickCore_decomp (P : EngineParams) (lim : Nat) (st : EngineState) :
    ∃ rfs : List FollowerInfo,
      (tickCore P lim st).1.followers = st.followers ++ rfs
      ∧ usernamesOf rfs = usernamesOf (harvestAt P st).2.1
      ∧ countBots rfs = countBots (harvestAt P st).2.1
      ∧ ((∀ f ∈ (harvestAt P st).2.1, f.removed = false) →
          countRemoved rfs + st.removed_count = (tickCore P lim st).1.removed_count)
      ∧ (tickCore P lim st).1.scanned_usernames = (harvestAt P st).1 := by
  unfold tickCore harvestAt
  dsimp only
  split <;> split <;>
    first
      | exact ⟨_, rfl, (processRemovals_shape _ _ _ _ _ _).1,
          (processRemovals_shape _ _ _ _ _ _).2,
          fun hall => processRemovals_removed _ _ _ _ _ _ hall, rfl⟩
      | exact ⟨_, rfl, rfl, rfl,
          fun hall => by rw [countRemoved_eq_zero hall, Nat.zero_add], rfl⟩

/-- If the removal limit has not been reached and the tick decides to continue,
    the no-new counter stays below 3 and the scroll counter advances by one. -/
theorem tick_cont (P : EngineParams) (lim : Nat) (st : EngineState)
    (h : (tick P lim st).2 = true) :
    (tick P lim st).1.no_new_followers_count ≤ 2
    ∧ (tick P lim st).1.scroll_count = st.scroll_count + 1 := by
  have hsc := (tickCore_simple P lim st).1
  unfold tick at h ⊢
  dsimp only at h ⊢
  split at h
  next h1 => simp at h
  next h1 =>
    split at h
    next h2 =>
      split at h
      next h3 => simp at h
      next h3 =>
        rw [if_neg h1, if_pos h2, if_neg h3]
        refine ⟨?_, ?_⟩ <;> dsimp only <;> omega
    next h2 =>
      rw [if_neg h1, if_neg h2]
      refine ⟨?_, ?_⟩ <;> dsimp only <;> omega

/-- Every tick counts exactly one loop iteration. -/
theorem tick_ticks (P : EngineParams) (lim : Nat) (st : EngineState) :
    (tick P lim st).1.ticks = st.ticks + 1 := by
  rw [(tick_fields P lim st).2.2.2.2.2.2.1, (tickCore_simple P lim st).2.2]

/-- Invariance principle for the tick loop. -/
theorem engineLoop_inv (P : EngineParams) (lim : Nat) (M : EngineState → Prop)
    (hM : ∀ st, M st → M (tick P lim st).1) :
    ∀ fuel st, M st → M (engineLoop P lim fuel st) := by
  intro fuel
  induction fuel with
  | zero => intro st h; exact h
  | succ n ih =>
    intro st h
    show M (if st.scroll_count < max_scroll_attempts then
      (if (tick P lim st).2 then engineLoop P lim n (tick P lim st).1 else (tick P lim st).1)
      else st)
    split
    · split
      · exact ih _ (hM st h)
      · exact hM st h
    · exact h

/-- A tick preserves duplicate-freedom: harvested records are fresh by
    username and the removal phase never changes usernames. -/
theorem tick_nodup (P : EngineParams) (lim : Nat) (st : EngineState)
    (h1 : (usernamesOf st.followers).Nodup)
    (h2 : ∀ f ∈ st.followers, f.username ∈ st.scanned_usernames) :
    (usernamesOf (tick P lim st).1.followers).Nodup
    ∧ ∀ f ∈ (tick P lim st).1.followers,
        f.username ∈ (tick P lim st).1.scanned_usernames := by
  have hf := tick_fields P lim st
  rw [hf.2.1, hf.1]
  obtain ⟨rfs, he, hu, _, _, hsc⟩ := tickCore_decomp P lim st
  simp only [harvestAt] at hu hsc
  rw [he, hsc]
  have hacc : ((usernamesOf ([] : List FollowerInfo)).Nodup
      ∧ ∀ f ∈ ([] : List FollowerInfo), f.username ∈ st.scanned_usernames) := by
    refine ⟨by simp [usernamesOf], by simp⟩
  obtain ⟨hN1, hN2, hN3⟩ := harvestCells_fresh
    (if P.from_end then (P.driver st.scroll_count).reverse else P.driver st.scroll_count)
    st.scanned_usernames [] 0 hacc
  have hmono := harvestCells_scanned_mono
    (if P.from_end then (P.driver st.scroll_count).reverse else P.driver st.scroll_count)
    st.scanned_usernames [] 0
  have hfresh : ∀ f ∈ (harvestCells st.scanned_usernames [] 0
      (if P.from_end then (P.driver st.scroll_count).reverse
       else P.driver st.scroll_count)).2.1,
      ¬ f.username ∈ st.scanned_usernames := by
    intro f hfm
    rcases hN3 f hfm with hc | hc
    · exact absurd hc (List.not_mem_nil f)
    · exact hc.1
  constructor
  · have happ : usernamesOf (st.followers ++ rfs)
        = usernamesOf st.followers ++ usernamesOf rfs := by simp [usernamesOf]
    rw [happ, List.nodup_append]
    refine ⟨h1, by rw [hu]; exact hN1, ?_⟩
    intro a ha hb'
    obtain ⟨f, hfm, hfe⟩ := List.mem_map.mp ha
    rw [hu] at hb'
    obtain ⟨g, hgm, hge⟩ := List.mem_map.mp hb'
    exact hfresh g hgm (hge ▸ hfe ▸ h2 f hfm)
  · intro f hfm
    rcases List.mem_append.mp hfm with hf' | hf'
    · exact hmono f.username (h2 f hf')
    · have hmem : f.username ∈ usernamesOf rfs := List.mem_map_of_mem _ hf'
      rw [hu] at hmem
      obtain ⟨g, hgm, hge⟩ := List.mem_map.mp hmem
      exact hge ▸ hN2 g hgm

/-- C2: across any sequence of ticks — however the page driver re-presents
    overlapping cells — the session's follower list stays duplicate-free by
    username (each username is appended at most once), and every recorded
    username is in the seen-set, which is what blocks re-classification and
    re-appending on later ticks. -/
theorem c2_followers_duplicate_free (P : EngineParams) (limit : Option Nat) :
    (usernamesOf (scan_and_remove_in_batches P limit).followers).Nodup
    ∧ ∀ f ∈ (scan_and_remove_in_batches P limit).followers,
        f.username ∈ (scan_and_remove_in_batches P limit).scanned_usernames := by
  exact engineLoop_inv P (effectiveRemovalLimit limit)
    (fun st => (usernamesOf st.followers).Nodup
      ∧ ∀ f ∈ st.followers, f.username ∈ st.scanned_usernames)
    (fun st h => tick_nodup P _ st h.1 h.2)
    max_scroll_attempts (initState P)
    ⟨by simp [usernamesOf, initState], by simp [initState]⟩

/-- A tick keeps the removed counter equal to the number of records marked
    removed. -/
theorem tick_removed_count (P : EngineParams) (lim : Nat) (st : EngineState)
    (h : st.removed_count = countRemoved st.followers) :
    (tick P lim st).1.removed_count = countRemoved (tick P lim st).1.followers := by
  have hf := tick_fields P lim st
  rw [hf.2.2.1, hf.2.1]
  obtain ⟨rfs, he, _, _, hrm, _⟩ := tickCore_decomp P lim st
  rw [he]
  have hall : ∀ f ∈ (harvestAt P st).2.1, f.removed = false := by
    simp only [harvestAt]
    intro f hfm
    rcases (harvestCells_fresh
        (if P.from_end then (P.driver st.scroll_count).reverse else P.driver st.scroll_count)
        st.scanned_usernames [] 0 ⟨by simp [usernamesOf], by simp⟩).2.2 f hfm with hc | hc
    · exact absurd hc (List.not_mem_nil f)
    · exact hc.2
  have hcr := hrm hall
  have happ : countRemoved (st.followers ++ rfs)
      = countRemoved st.followers + countRemoved rfs := by
    simp [countRemoved, List.countP_append]
  omega

/-- The removed counter always equals the number of removed records. -/
theorem scan_removed_count_eq (P : EngineParams) (limit : Option Nat) :
    (scan_and_remove_in_batches P limit).removed_count
      = countRemoved (scan_and_remove_in_batches P limit).followers :=
  engineLoop_inv P (effectiveRemovalLimit limit)
    (fun st => st.removed_count = countRemoved st.followers)
    (fun st h => tick_removed_count P _ st h) max_scroll_attempts (initState P) rfl

/-- C9: a backup is written iff at least one removal succeeded during the run
    (equivalently, iff some record ends with removed = true, since the guard
    `removed_count > 0` tracks exactly the removed records), and the followers
    serialized into the backup are exactly the records with removed = true —
    records with removed = false never appear. -/
theorem c9_backup_written_iff_and_contents (P : EngineParams) (limit : Option Nat) :
    (run_writes_backup (scan_and_remove_in_batches P limit) = true
      ↔ ∃ f ∈ (scan_and_remove_in_batches P limit).followers, f.removed = true)
    ∧ ∀ f, f ∈ save_backup_followers (scan_and_remove_in_batches P limit).followers
        ↔ (f ∈ (scan_and_remove_in_batches P limit).followers ∧ f.removed = true) := by
  have hinv := scan_removed_count_eq P limit
  constructor
  · rw [run_writes_backup]
    constructor
    · intro hw
      have hpos : 0 < (scan_and_remove_in_batches P limit).removed_count :=
        of_decide_eq_true hw
      rw [hinv, countRemoved] at hpos
      obtain ⟨f, hf, hp⟩ := List.countP_pos_iff.mp hpos
      exact ⟨f, hf, hp⟩
    · intro ⟨f, hf, hp⟩
      apply decide_eq_true
      rw [hinv, countRemoved]
      exact List.countP_pos_iff.mpr ⟨f, hf, hp⟩
  · intro f
    rw [save_backup_followers, List.mem_filter]

/- ===================== C1: removal limit ========================== -/

/-- Bot counts add over concatenation. -/
theorem countBots_append (a b : List FollowerInfo) :
    countBots (a ++ b) = countBots a + countBots b := by
  simp [countBots, List.countP_append]

/-- Removed counts add over concatenation. -/
theorem countRemoved_append (a b : List FollowerInfo) :
    countRemoved (a ++ b) = countRemoved a + countRemoved b := by
  simp [countRemoved, List.countP_append]

/-- Every record a tick harvests starts unremoved. -/
theorem harvestAt_unremoved (P : EngineParams) (st : EngineState) :
    ∀ f ∈ (harvestAt P st).2.1, f.removed = false := by
  simp only [harvestAt]
  intro f hfm
  rcases (harvestCells_fresh
      (if P.from_end then (P.driver st.scroll_count).reverse else P.driver st.scroll_count)
      st.scanned_usernames [] 0
      ⟨by simp [usernamesOf], by simp⟩).2.2 f hfm with hc | hc
  · exact absurd hc (List.not_mem_nil f)
  · exact hc.2

/-- The counter bookkeeping of the removal branch of a tick, in live mode with
    every attempt succeeding: whichever way the batch-removal guard evaluates
    (when it is skipped the batch has no bots), the removed counter stays
    min(limit, bots seen so far), matches the removed records, and equals the
    attempts started. -/
theorem removal_branch_live (lim : Nat) (succ : String → Bool)
    (hsucc : ∀ u, succ u = true) (followers newFs : List FollowerInfo)
    (rc fc att : Nat) (c : Bool)
    (hrc : rc = min lim (countBots followers))
    (hcr : rc = countRemoved followers)
    (hatt : att = rc)
    (hall : ∀ f ∈ newFs, f.removed = false)
    (hc0 : c = false → countBots newFs = 0) :
    ((if c = true then processRemovals lim succ newFs rc fc att
      else ⟨newFs, rc, fc, att⟩ : RemovalResult)).removed_count
        = min lim (countBots (followers ++
            ((if c = true then processRemovals lim succ newFs rc fc att
              else ⟨newFs, rc, fc, att⟩ : RemovalResult)).fs))
    ∧ ((if c = true then processRemovals lim succ newFs rc fc att
        else ⟨newFs, rc, fc, att⟩ : RemovalResult)).removed_count
        = countRemoved (followers ++
            ((if c = true then processRemovals lim succ newFs rc fc att
              else ⟨newFs, rc, fc, att⟩ : RemovalResult)).fs)
    ∧ ((if c = true then processRemovals lim succ newFs rc fc att
        else ⟨newFs, rc, fc, att⟩ : RemovalResult)).attempts
        = ((if c = true then processRemovals lim succ newFs rc fc att
            else ⟨newFs, rc, fc, att⟩ : RemovalResult)).removed_count := by
  have hlim : rc ≤ lim := by omega
  cases c with
  | false =>
    have hb0 := hc0 rfl
    simp only [Bool.false_eq_true, if_false]
    refine ⟨?_, ?_, hatt⟩
    · rw [countBots_append, hb0]
      omega
    · rw [countRemoved_append, countRemoved_eq_zero hall]
      omega
  | true =>
    simp only [reduceIte]
    obtain ⟨h1, h2⟩ := processRemovals_all_success lim succ hsucc newFs rc fc att hlim
    have h3 := processRemovals_removed lim succ newFs rc fc att hall
    have hshape := (processRemovals_shape lim succ newFs rc fc att).2
    refine ⟨?_, ?_, ?_⟩
    · rw [countBots_append, hshape]
      omega
    · rw [countRemoved_append]
      omega
    · omega

/-- The invariant maintained by every tick of a live all-success run. -/
def LiveInv (lim : Nat) (st : EngineState) : Prop :=
  st.dry_run = false
  ∧ st.removed_count = min lim (countBots st.followers)
  ∧ st.removed_count = countRemoved st.followers
  ∧ st.attempts = st.removed_count

/-- One tick preserves the live-run invariant (the confirmation gate never
    downgrades the run because the operator either is not asked or accepts). -/
theorem tick_live (P : EngineParams) (lim : Nat) (st : EngineState)
    (hconf : P.require_confirmation = false ∨ P.confirmAnswer = true)
    (hsucc : ∀ u, P.removeSuccess u = true)
    (hInv : LiveInv lim st) : LiveInv lim (tick P lim st).1 := by
  obtain ⟨hdry, hrc, hcr, hatt⟩ := hInv
  have hall := harvestAt_unremoved P st
  simp only [harvestAt] at hall
  have hf := tick_fields P lim st
  refine ⟨?_, ?_⟩
  · rw [hf.2.2.2.2.1]
    unfold tickCore
    dsimp only
    rcases hconf with hq | hq <;> simp [hq, hdry]
  · rw [hf.2.2.1, hf.2.1, hf.2.2.2.2.2.2.2]
    unfold tickCore
    dsimp only
    apply removal_branch_live lim P.removeSuccess hsucc st.followers _
      st.removed_count st.failed_count st.attempts _ hrc hcr hatt hall
    intro hb
    rcases hconf with hq | hq <;>
      simp only [hq, hdry, Bool.not_false, Bool.not_true, Bool.and_true, Bool.and_false,
        Bool.false_and, Bool.true_and] at hb <;>
    · rw [countBots, List.countP_eq_zero]
      intro g hg
      intro hgb
      rw [List.any_eq_false] at hb
      exact hb g hg hgb

/-- C1: in a live run where every attempted removal succeeds, with removal
    limit N (N ≥ 1, passed as the limit parameter) and strictly more than N
    bots harvested over the run, exactly N records end with removed = true, the
    removed counter ends at N, and exactly N removal attempts are ever started
    — the engine compares the counter to the limit before each attempt, so no
    attempt starts once N is reached. -/
theorem c1_removal_limit_exact (P : EngineParams) (N : Nat)
    (hN : 0 < N)
    (hdry : P.dry_run = false)
    (hconf : P.require_confirmation = false ∨ P.confirmAnswer = true)
    (hsucc : ∀ u, P.removeSuccess u = true)
    (hmany : N < countBots (scan_and_remove_in_batches P (some N)).followers) :
    countRemoved (scan_and_remove_in_batches P (some N)).followers = N
    ∧ (scan_and_remove_in_batches P (some N)).attempts = N
    ∧ (scan_and_remove_in_batches P (some N)).removed_count = N := by
  have hE : effectiveRemovalLimit (some N) = N := by
    have hnz : N ≠ 0 := by omega
    simp [effectiveRemovalLimit, hnz]
  have hfin : LiveInv N (scan_and_remove_in_batches P (some N)) := by
    unfold scan_and_remove_in_batches
    rw [hE]
    refine engineLoop_inv P N (LiveInv N) (fun st h => tick_live P N st hconf hsucc h)
      max_scroll_attempts (initState P) ?_
    refine ⟨hdry, ?_, rfl, rfl⟩
    simp [initState, countBots]
  obtain ⟨_, h1, h2, h3⟩ := hfin
  refine ⟨by omega, by omega, by omega⟩

theorem c1_removal_limit_exact_witness :
    (1 : Nat) < countBots (scan_and_remove_in_batches
        ⟨fun k => if k = 0 then [some ("bot111111", ""), some ("bot222222", "")] else [],
         fun _ => true, true, false, false, false⟩ (some 1)).followers
    ∧ countRemoved (scan_and_remove_in_batches
        ⟨fun k => if k = 0 then [some ("bot111111", ""), some ("bot222222", "")] else [],
         fun _ => true, true, false, false, false⟩ (some 1)).followers = 1
    ∧ (scan_and_remove_in_batches
        ⟨fun k => if k = 0 then [some ("bot111111", ""), some ("bot222222", "")] else [],
         fun _ => true, true, false, false, false⟩ (some 1)).attempts = 1 := by
  refine ⟨by decide, ?_⟩
  have := c1_removal_limit_exact
    ⟨fun k => if k = 0 then [some ("bot111111", ""), some ("bot222222", "")] else [],
     fun _ => true, true, false, false, false⟩ 1
    (by decide) rfl (Or.inr rfl) (fun u => rfl) (by decide)
  exact ⟨this.1, this.2.1⟩

/- ===================== C4: termination ========================== -/

/-- The loop executes at most `fuel` ticks. -/
theorem engineLoop_ticks (P : EngineParams) (lim : Nat) :
    ∀ fuel st, (engineLoop P lim fuel st).ticks ≤ st.ticks + fuel := by
  intro fuel
  induction fuel with
  | zero => intro st; simp [engineLoop]
  | succ n ih =>
    intro st
    show (if st.scroll_count < max_scroll_attempts then
        (if (tick P lim st).2 then engineLoop P lim n (tick P lim st).1
         else (tick P lim st).1) else st).ticks ≤ st.ticks + (n + 1)
    have ht := tick_ticks P lim st
    split
    · split
      · have := ih (tick P lim st).1
        omega
      · omega
    · omega

/-- A tick served an empty cell list by the driver: if it continues, it has
    bumped the consecutive-no-new counter (which therefore was at most 1) and
    scrolled. -/
theorem tick_empty_driver (P : EngineParams) (lim : Nat) (st : EngineState)
    (hd : P.driver st.scroll_count = []) (h : (tick P lim st).2 = true) :
    (tick P lim st).1.no_new_followers_count = st.no_new_followers_count + 1
    ∧ st.no_new_followers_count + 1 ≤ 2
    ∧ (tick P lim st).1.scroll_count = st.scroll_count + 1 := by
  have h2 : (tickCore P lim st).2 = 0 := by
    unfold tickCore
    dsimp only
    rw [hd]
    cases hfe : P.from_end <;> simp [hfe, harvestCells]
  have hnn := (tickCore_simple P lim st).2.1
  have hsc := (tickCore_simple P lim st).1
  unfold tick at h ⊢
  dsimp only at h ⊢
  split at h
  next h1 => simp at h
  next h1 =>
    split at h
    next hq => simp at h
    next hq =>
      rw [if_neg h1, if_pos h2, if_neg hq]
      refine ⟨?_, ?_, ?_⟩ <;> dsimp only <;> omega

/-- Once the driver presents nothing from tick N on, the loop executes at most
    N + 3 ticks in total (it needs at most 3 further consecutive no-new ticks
    to stop), measured against a state-dependent budget. -/
theorem engineLoop_empty_tail (P : EngineParams) (lim : Nat) (N : Nat)
    (hd : ∀ n, N ≤ n → P.driver n = []) :
    ∀ fuel st, (N ≤ st.scroll_count → st.no_new_followers_count ≤ 2) →
      (engineLoop P lim fuel st).ticks
        ≤ st.ticks + (if st.scroll_count < N then (N - st.scroll_count) + 3
                      else 3 - st.no_new_followers_count) := by
  intro fuel
  induction fuel with
  | zero =>
    intro st hpre
    simp only [engineLoop]
    split <;> omega
  | succ n ih =>
    intro st hpre
    show (if st.scroll_count < max_scroll_attempts then
        (if (tick P lim st).2 then engineLoop P lim n (tick P lim st).1
         else (tick P lim st).1) else st).ticks ≤ _
    have ht := tick_ticks P lim st
    split
    next hguard =>
      split
      next hcont =>
        have hcc := tick_cont P lim st hcont
        have hrec := ih (tick P lim st).1 (fun _ => hcc.1)
        by_cases hsN' : (tick P lim st).1.scroll_count < N
        · rw [if_pos hsN'] at hrec
          have hsN : st.scroll_count < N := by omega
          rw [if_pos hsN]
          omega
        · rw [if_neg hsN'] at hrec
          by_cases hsN : st.scroll_count < N
          · rw [if_pos hsN]
            omega
          · rw [if_neg hsN]
            have hd0 : P.driver st.scroll_count = [] := hd _ (by omega)
            obtain ⟨hnn, hb, _⟩ := tick_empty_driver P lim st hd0 hcont
            omega
      next hcont =>
        split
        next hsN => omega
        next hsN =>
          have := hpre (by omega)
          omega
    next hguard =>
      split <;> omega

/-- C4: the tick loop always terminates — it runs at most
    max_scroll_attempts = 150 ticks for every driver (so the engine is a total
    function of the simulated driver), a continuing tick never carries 3
    consecutive no-new ticks (the third consecutive empty tick stops the
    loop), and a driver that presents nothing from tick N on stops the engine
    within N + 3 ticks. -/
theorem c4_engine_terminates (P : EngineParams) (limit : Option Nat) :
    (scan_and_remove_in_batches P limit).ticks ≤ max_scroll_attempts
    ∧ (∀ st : EngineState, (tick P (effectiveRemovalLimit limit) st).2 = true →
        (tick P (effectiveRemovalLimit limit) st).1.no_new_followers_count ≤ 2)
    ∧ (∀ N : Nat, (∀ n, N ≤ n → P.driver n = []) →
        (scan_and_remove_in_batches P limit).ticks ≤ N + 3) := by
  refine ⟨?_, fun st h => (tick_cont P _ st h).1, ?_⟩
  · have := engineLoop_ticks P (effectiveRemovalLimit limit) max_scroll_attempts (initState P)
    simpa [initState] using this
  · intro N hd
    have := engineLoop_empty_tail P (effectiveRemovalLimit limit) N hd max_scroll_attempts
      (initState P) (fun _ => by simp [initState])
    unfold scan_and_remove_in_batches
    simp only [initState] at this ⊢
    split at this <;> omega

theorem c4_engine_terminates_witness :
    (scan_and_remove_in_batches
        ⟨fun _ => [], fun _ => true, true, true, false, false⟩ none).ticks ≤ 0 + 3 :=
  (c4_engine_terminates ⟨fun _ => [], fun _ => true, true, true, false, false⟩ none).2.2
    0 (fun _ _ => rfl)

/- ===================== C3: declined confirmation ========================== -/

/-- Relation between a run whose operator declines the first confirmation and
    the corresponding dry run: all observable state coincides; the comparison
    run is in dry-run mode throughout, and the decline run keeps first_removal
    set as long as it has not yet been downgraded. -/
def DeclineRel (s t : EngineState) : Prop :=
  s.scanned_usernames = t.scanned_usernames
  ∧ s.followers = t.followers
  ∧ s.removed_count = t.removed_count
  ∧ s.failed_count = t.failed_count
  ∧ s.scroll_count = t.scroll_count
  ∧ s.no_new_followers_count = t.no_new_followers_count
  ∧ s.ticks = t.ticks
  ∧ s.attempts = t.attempts
  ∧ t.dry_run = true
  ∧ (s.dry_run = false → s.first_removal = true)

/-- Harvest/removal phase: with confirmation required and the operator
    declining, a tick of the decline run has exactly the dry-run effect — the
    first batch containing a bot downgrades the run instead of removing. -/
theorem tickCore_decline (P : EngineParams) (lim : Nat)
    (hreq : P.require_confirmation = true) (hconf : P.confirmAnswer = false)
    (s t : EngineState) (h : DeclineRel s t) :
    DeclineRel (tickCore P lim s).1 (tickCore P lim t).1
    ∧ (tickCore P lim s).2 = (tickCore P lim t).2 := by
  obtain ⟨h1, h2, h3, h4, h5, h6, h7, h8, h9, h10⟩ := h
  unfold tickCore DeclineRel
  dsimp only
  rw [h1, h2, h3, h4, h5, h6, h7, h8, h9, hreq, hconf]
  cases hsd : s.dry_run with
  | true => simp
  | false =>
    rw [h10 hsd]
    simp

/-- The stop/advance phase of a tick maps related harvest-phase states to
    related states and makes the same continue decision. -/
theorem tick_of_tickCore_rel (P : EngineParams) (lim : Nat) (s t : EngineState)
    (hrel : DeclineRel (tickCore P lim s).1 (tickCore P lim t).1)
    (hnf : (tickCore P lim s).2 = (tickCore P lim t).2) :
    DeclineRel (tick P lim s).1 (tick P lim t).1
    ∧ (tick P lim s).2 = (tick P lim t).2 := by
  obtain ⟨h1, h2, h3, h4, h5, h6, h7, h8, h9, h10⟩ := hrel
  unfold tick
  dsimp only
  rw [hnf, h1, h2, h3, h4, h5, h6, h7, h8]
  split
  · exact ⟨⟨h1, h2, h3, h4, h5, h6, h7, h8, h9, h10⟩, rfl⟩
  · split
    · split
      · exact ⟨⟨rfl, rfl, rfl, rfl, rfl, rfl, rfl, rfl, h9, h10⟩, rfl⟩
      · exact ⟨⟨rfl, rfl, rfl, rfl, rfl, rfl, rfl, rfl, h9, h10⟩, rfl⟩
    · exact ⟨⟨rfl, rfl, rfl, rfl, rfl, rfl, rfl, rfl, h9, h10⟩, rfl⟩

/-- A full tick preserves the decline/dry-run relation. -/
theorem tick_decline (P : EngineParams) (lim : Nat)
    (hreq : P.require_confirmation = true) (hconf : P.confirmAnswer = false)
    (s t : EngineState) (h : DeclineRel s t) :
    DeclineRel (tick P lim s).1 (tick P lim t).1
    ∧ (tick P lim s).2 = (tick P lim t).2 :=
  tick_of_tickCore_rel P lim s t (tickCore_decline P lim hreq hconf s t h).1
    (tickCore_decline P lim hreq hconf s t h).2

/-- The whole loop preserves the decline/dry-run relation. -/
theorem engineLoop_decline (P : EngineParams) (lim : Nat)
    (hreq : P.require_confirmation = true) (hconf : P.confirmAnswer = false) :
    ∀ fuel s t, DeclineRel s t →
      DeclineRel (engineLoop P lim fuel s) (engineLoop P lim fuel t) := by
  intro fuel
  induction fuel with
  | zero => intro s t h; exact h
  | succ n ih =>
    intro s t h
    obtain ⟨hrel, hcont⟩ := tick_decline P lim hreq hconf s t h
    have h5 : s.scroll_count = t.scroll_count := h.2.2.2.2.1
    show DeclineRel
      (if s.scroll_count < max_scroll_attempts then
        (if (tick P lim s).2 then engineLoop P lim n (tick P lim s).1 else (tick P lim s).1)
       else s)
      (if t.scroll_count < max_scroll_attempts then
        (if (tick P lim t).2 then engineLoop P lim n (tick P lim t).1 else (tick P lim t).1)
       else t)
    rw [h5, hcont]
    split
    · split
      · exact ih _ _ hrel
      · exact hrel
    · exact h

/-- A dry-run tick removes nothing and never leaves dry-run mode. -/
theorem tick_dry (P : EngineParams) (lim : Nat) (st : EngineState)
    (h : st.dry_run = true ∧ st.removed_count = 0 ∧ st.attempts = 0) :
    (tick P lim st).1.dry_run = true ∧ (tick P lim st).1.removed_count = 0
    ∧ (tick P lim st).1.attempts = 0 := by
  obtain ⟨h1, h2, h3⟩ := h
  have hf := tick_fields P lim st
  rw [hf.2.2.2.2.1, hf.2.2.1, hf.2.2.2.2.2.2.2]
  unfold tickCore
  dsimp only
  rw [h1]
  simp [h2, h3]

/-- The engine never reads the dry_run parameter after initialization, so the
    tick function ignores it. -/
theorem tick_dry_run_param (P : EngineParams) (b : Bool) (lim : Nat) (st : EngineState) :
    tick { P with dry_run := b } lim st = tick P lim st := rfl

/-- Nor does the loop. -/
theorem engineLoop_dry_run_param (P : EngineParams) (b : Bool) (lim : Nat) :
    ∀ fuel st, engineLoop { P with dry_run := b } lim fuel st = engineLoop P lim fuel st := by
  intro fuel
  induction fuel with
  | zero => intro st; rfl
  | succ n ih =>
    intro st
    simp only [engineLoop, tick_dry_run_param]
    split
    · split
      · exact ih _
      · rfl
    · rfl

/-- C3: if the operator declines the first removal confirmation (confirmation
    required, answer false, live mode), then for the remainder of the run no
    removal attempt is ever started and no record is ever set to
    removed = true, while scanning and classification continue exactly as in a
    dry run: the follower list and the seen-set equal those of the same run
    started in dry-run mode. -/
theorem c3_decline_downgrades_to_dry_run (P : EngineParams) (limit : Option Nat)
    (hreq : P.require_confirmation = true) (hconf : P.confirmAnswer = false)
    (hdry : P.dry_run = false) :
    (scan_and_remove_in_batches P limit).attempts = 0
    ∧ (scan_and_remove_in_batches P limit).removed_count = 0
    ∧ (∀ f ∈ (scan_and_remove_in_batches P limit).followers, f.removed = false)
    ∧ (scan_and_remove_in_batches P limit).followers
        = (scan_and_remove_in_batches { P with dry_run := true } limit).followers
    ∧ (scan_and_remove_in_batches P limit).scanned_usernames
        = (scan_and_remove_in_batches { P with dry_run := true } limit).scanned_usernames := by
  have hrw : scan_and_remove_in_batches { P with dry_run := true } limit
      = engineLoop P (effectiveRemovalLimit limit) max_scroll_attempts
          (initState { P with dry_run := true }) := by
    unfold scan_and_remove_in_batches
    rw [engineLoop_dry_run_param]
  have hinitrel : DeclineRel (initState P) (initState { P with dry_run := true }) :=
    ⟨rfl, rfl, rfl, rfl, rfl, rfl, rfl, rfl, rfl, fun _ => rfl⟩
  have hrel := engineLoop_decline P (effectiveRemovalLimit limit) hreq hconf
    max_scroll_attempts (initState P) (initState { P with dry_run := true }) hinitrel
  have hdryinv := engineLoop_inv P (effectiveRemovalLimit limit)
    (fun st => st.dry_run = true ∧ st.removed_count = 0 ∧ st.attempts = 0)
    (fun st h => tick_dry P _ st h) max_scroll_attempts
    (initState { P with dry_run := true }) ⟨rfl, rfl, rfl⟩
  obtain ⟨g1, g2, g3, g4, g5, g6, g7, g8, g9, g10⟩ := hrel
  obtain ⟨d1, d2, d3⟩ := hdryinv
  have hrc : (scan_and_remove_in_batches P limit).removed_count = 0 := by
    unfold scan_and_remove_in_batches
    rw [g3]
    exact d2
  refine ⟨?_, hrc, ?_, ?_, ?_⟩
  · unfold scan_and_remove_in_batches
    rw [g8]
    exact d3
  · intro f hf
    have hcr := scan_removed_count_eq P limit
    rw [hrc] at hcr
    have h0 : countRemoved (scan_and_remove_in_batches P limit).followers = 0 := hcr.symm
    rw [countRemoved] at h0
    have := List.countP_eq_zero.mp h0 f hf
    simpa using this
  · rw [hrw]
    exact g2
  · rw [hrw]
    exact g1

theorem c3_decline_downgrades_to_dry_run_witness :
    (scan_and_remove_in_batches
        ⟨fun k => if k = 0 then [some ("spam123456", "")]
                  else if k = 1 then [some ("junk999999", ""), some ("alice", "")] else [],
         fun _ => true, false, false, true, false⟩ none).attempts = 0
    ∧ (scan_and_remove_in_batches
        ⟨fun k => if k = 0 then [some ("spam123456", "")]
                  else if k = 1 then [some ("junk999999", ""), some ("alice", "")] else [],
         fun _ => true, false, false, true, false⟩ none).removed_count = 0
    ∧ (scan_and_remove_in_batches
        ⟨fun k => if k = 0 then [some ("spam123456", "")]
                  else if k = 1 then [some ("junk999999", ""), some ("alice", "")] else [],
         fun _ => true, false, false, true, false⟩ none).followers.length = 3 := by
  have h := c3_decline_downgrades_to_dry_run
    ⟨fun k => if k = 0 then [some ("spam123456", "")]
              else if k = 1 then [some ("junk999999", ""), some ("alice", "")] else [],
     fun _ => true, false, false, true, false⟩ none rfl rfl rfl
  exact ⟨h.1, h.2.1, by decide⟩

/- ===================== C8: process exit status ========================== -/

/-- How a run of `main` ends (src/main.py): `main_async` returns normally with
    the report's error list, a KeyboardInterrupt escapes (caught in
    `main_async` or around `asyncio.run` in `main`), or some other exception
    escapes the run (the fatal-error handler of `main_async`). -/
inductive RunOutcome where
  | completed (errors : List String)
  | interrupted
  | fatal (msg : String)

/-- The exit status of `main` (src/main.py lines 148-173):
    `return 0 if not report.errors else 1`, `return 130` on KeyboardInterrupt
    (both catch sites), `return 1` on any other exception. -/
def mainExitCode : RunOutcome → Nat
  | .completed errors => if errors.isEmpty then 0 else 1
  | .interrupted => 130
  | .fatal _ => 1

/-- C8: the process exits 0 exactly when the run completed with an empty
    report error list; it exits 130 exactly when the run was interrupted; and
    it exits 1 exactly when an error was recorded or a fatal exception escaped
    the run. -/
theorem c8_exit_status (o : RunOutcome) :
    (mainExitCode o = 0 ↔ o = RunOutcome.completed [])
    ∧ (mainExitCode o = 130 ↔ o = RunOutcome.interrupted)
    ∧ (mainExitCode o = 1 ↔
        ((∃ e es, o = RunOutcome.completed (e :: es)) ∨ ∃ m, o = RunOutcome.fatal m)) := by
  rcases o with errors | _ | m
  · cases errors with
    | nil => simp [mainExitCode]
    | cons e es => simp [mainExitCode]
  · simp [mainExitCode]
  · simp [mainExitCode]

/- ===================== C10: falsy zero limit ========================== -/

/-- C10: `limit or LIMITS["max_removals_per_session"]` treats 0 as falsy, so
    calling the engine with limit = 0 yields the default effective limit of
    1000 rather than "remove nothing" (a live run with limit 0 and one bot
    removes it), while any positive limit — even one above the per-session cap
    of 1000 — is used exactly as given, never intersected with the cap. -/
theorem c10_zero_limit_means_default (n : Nat) (hn : 0 < n) :
    effectiveRemovalLimit (some 0) = max_removals_per_session
    ∧ max_removals_per_session = 1000
    ∧ effectiveRemovalLimit (some n) = n
    ∧ (scan_and_remove_in_batches
        ⟨fun k => if k = 0 then [some ("spam123456", "")] else [],
         fun _ => true, true, false, false, false⟩ (some 0)).removed_count = 1 := by
  have hnz : n ≠ 0 := by omega
  refine ⟨rfl, rfl, by simp [effectiveRemovalLimit, hnz], by decide⟩

theorem c10_zero_limit_means_default_witness :
    effectiveRemovalLimit (some 2000) = 2000 :=
  (c10_zero_limit_means_default 2000 (by decide)).2.2.1

end XBotsPurge
